import Mathlib

/-!
# btc-go: key pair generation, address derivation and vanity search

A shallow embedding of `keypair.go`.  The program is a thin driver over the
btcsuite libraries (`btcec`, `btcnet`, `btcutil`) and Go's `regexp`,
`strings` and `encoding/hex`; the library routines the program runs through
are embedded next to the four functions of the file itself
(`generateKeyPair`, `generateAddr`, `generateVanityAddress`, `main`).

Bytes are `Fin 256`.  Big integers (`math/big`) are `Nat`.
-/

set_option maxRecDepth 100000

namespace BtcGo

/-- One octet. -/
abbrev Byte := Fin 256

/-- The low eight bits of a number (Go's `byte(x)` conversion). -/
def toByte (x : Nat) : Byte := ⟨x % 256, Nat.mod_lt x (by decide)⟩

/-! ## `crypto/sha256` (FIPS 180-4), on 32-bit words kept as `Nat` modulo `2^32` -/

/-- The modulus of 32-bit word arithmetic, `2^32`. -/
def mask32 : Nat := 4294967296

/-- Rotate a 32-bit word right by `n` bits. -/
def rotr (x n : Nat) : Nat := ((x >>> n) ||| (x <<< (32 - n))) % mask32

/-- Rotate a 32-bit word left by `n` bits. -/
def rotl (x n : Nat) : Nat := ((x <<< n) ||| (x >>> (32 - n))) % mask32

/-- Bitwise complement of a 32-bit word. -/
def not32 (x : Nat) : Nat := mask32 - 1 - x

/-- The 64 round constants of SHA-256 (`_K`). -/
def sha256K : List Nat := [
  0x428a2f98, 0x71374491, 0xb5c0fbcf, 0xe9b5dba5, 0x3956c25b, 0x59f111f1, 0x923f82a4, 0xab1c5ed5,
  0xd807aa98, 0x12835b01, 0x243185be, 0x550c7dc3, 0x72be5d74, 0x80deb1fe, 0x9bdc06a7, 0xc19bf174,
  0xe49b69c1, 0xefbe4786, 0x0fc19dc6, 0x240ca1cc, 0x2de92c6f, 0x4a7484aa, 0x5cb0a9dc, 0x76f988da,
  0x983e5152, 0xa831c66d, 0xb00327c8, 0xbf597fc7, 0xc6e00bf3, 0xd5a79147, 0x06ca6351, 0x14292967,
  0x27b70a85, 0x2e1b2138, 0x4d2c6dfc, 0x53380d13, 0x650a7354, 0x766a0abb, 0x81c2c92e, 0x92722c85,
  0xa2bfe8a1, 0xa81a664b, 0xc24b8b70, 0xc76c51a3, 0xd192e819, 0xd6990624, 0xf40e3585, 0x106aa070,
  0x19a4c116, 0x1e376c08, 0x2748774c, 0x34b0bcb5, 0x391c0cb3, 0x4ed8aa4a, 0x5b9cca4f, 0x682e6ff3,
  0x748f82ee, 0x78a5636f, 0x84c87814, 0x8cc70208, 0x90befffa, 0xa4506ceb, 0xbef9a3f7, 0xc67178f2]

/-- Merkle-Damgard padding shared by both hashes: the byte `0x80`, zero bytes
up to 56 modulo 64, then the 64-bit bit length, whose eight bytes are given by
`lenByte` (position `i` of the length field, applied to the bit length). -/
def mdPad (lenByte : Nat → Nat → Nat) (m : List Nat) : List Nat :=
  let l := m.length
  let z := (119 - l % 64) % 64
  m ++ [0x80] ++ List.replicate z 0 ++ (List.range 8).map (fun i => lenByte i (l * 8))

/-- The 64-byte blocks of a padded message. -/
def blocks (p : List Nat) : List (List Nat) :=
  (List.range (p.length / 64)).map fun i => (p.drop (64 * i)).take 64

/-- Big-endian value of a few bytes. -/
def beWord (b : List Nat) : Nat := b.foldl (fun a d => a * 256 + d) 0

/-- Little-endian value of a few bytes. -/
def leWord (b : List Nat) : Nat := b.foldr (fun d a => a * 256 + d) 0

/-- The sixteen 32-bit words of a block, each read with `rd`. -/
def blockWords (rd : List Nat → Nat) (blk : List Nat) : List Nat :=
  (List.range 16).map fun i => rd ((blk.drop (4 * i)).take 4)

/-- One step of the SHA-256 message schedule; `w` holds the words computed so
far, newest first. -/
def sha256SchedStep (w : List Nat) : List Nat :=
  let w2 := w.getD 1 0
  let w7 := w.getD 6 0
  let w15 := w.getD 14 0
  let w16 := w.getD 15 0
  let s0 := rotr w15 7 ^^^ rotr w15 18 ^^^ (w15 >>> 3)
  let s1 := rotr w2 17 ^^^ rotr w2 19 ^^^ (w2 >>> 10)
  ((w16 + s0 + w7 + s1) % mask32) :: w

/-- The 64-word message schedule of a block. -/
def sha256Schedule (blk : List Nat) : List Nat :=
  (Nat.iterate sha256SchedStep 48 (blockWords beWord blk).reverse).reverse

/-- The eight working variables of SHA-256. -/
structure Sha256State where
  a : Nat
  b : Nat
  c : Nat
  d : Nat
  e : Nat
  f : Nat
  g : Nat
  h : Nat
deriving DecidableEq, Repr

/-- One of the 64 rounds, with round constant `kw.1` and schedule word `kw.2`. -/
def sha256Round (s : Sha256State) (kw : Nat × Nat) : Sha256State :=
  let S1 := rotr s.e 6 ^^^ rotr s.e 11 ^^^ rotr s.e 25
  let ch := (s.e &&& s.f) ^^^ (not32 s.e &&& s.g)
  let t1 := (s.h + S1 + ch + kw.1 + kw.2) % mask32
  let S0 := rotr s.a 2 ^^^ rotr s.a 13 ^^^ rotr s.a 22
  let maj := (s.a &&& s.b) ^^^ (s.a &&& s.c) ^^^ (s.b &&& s.c)
  let t2 := (S0 + maj) % mask32
  ⟨(t1 + t2) % mask32, s.a, s.b, s.c, (s.d + t1) % mask32, s.e, s.f, s.g⟩

/-- The compression function: 64 rounds, then the feed-forward addition. -/
def sha256Block (s : Sha256State) (blk : List Nat) : Sha256State :=
  let r := (sha256K.zip (sha256Schedule blk)).foldl sha256Round s
  ⟨(s.a + r.a) % mask32, (s.b + r.b) % mask32, (s.c + r.c) % mask32, (s.d + r.d) % mask32,
   (s.e + r.e) % mask32, (s.f + r.f) % mask32, (s.g + r.g) % mask32, (s.h + r.h) % mask32⟩

/-- The four bytes of a 32-bit word, most significant first. -/
def wordBE (w : Nat) : List Byte := [toByte (w >>> 24), toByte (w >>> 16), toByte (w >>> 8), toByte w]

/-- The four bytes of a 32-bit word, least significant first. -/
def wordLE (w : Nat) : List Byte := [toByte w, toByte (w >>> 8), toByte (w >>> 16), toByte (w >>> 24)]

/-- The initial hash value of SHA-256. -/
def sha256Init : Sha256State :=
  ⟨0x6a09e667, 0xbb67ae85, 0x3c6ef372, 0xa54ff53a, 0x510e527f, 0x9b05688c, 0x1f83d9ab, 0x5be0cd19⟩

/-- SHA-256 of a byte string: a 32-byte digest. -/
def sha256 (m : List Byte) : List Byte :=
  let p := mdPad (fun i n => (n >>> (8 * (7 - i))) % 256) (m.map Fin.val)
  let s := (blocks p).foldl sha256Block sha256Init
  wordBE s.a ++ wordBE s.b ++ wordBE s.c ++ wordBE s.d ++
    wordBE s.e ++ wordBE s.f ++ wordBE s.g ++ wordBE s.h

/-! ## `ripemd160` -/

/-- Message word selection of the left line (`_n`). -/
def rmdNL : List Nat := [
  0, 1, 2, 3, 4, 5, 6, 7, 8, 9, 10, 11, 12, 13, 14, 15,
  7, 4, 13, 1, 10, 6, 15, 3, 12, 0, 9, 5, 2, 14, 11, 8,
  3, 10, 14, 4, 9, 15, 8, 1, 2, 7, 0, 6, 13, 11, 5, 12,
  1, 9, 11, 10, 0, 8, 12, 4, 13, 3, 7, 15, 14, 5, 6, 2,
  4, 0, 5, 9, 7, 12, 2, 10, 14, 1, 3, 8, 11, 6, 15, 13]

/-- Rotation amounts of the left line (`_r`). -/
def rmdRL : List Nat := [
  11, 14, 15, 12, 5, 8, 7, 9, 11, 13, 14, 15, 6, 7, 9, 8,
  7, 6, 8, 13, 11, 9, 7, 15, 7, 12, 15, 9, 11, 7, 13, 12,
  11, 13, 6, 7, 14, 9, 13, 15, 14, 8, 13, 6, 5, 12, 7, 5,
  11, 12, 14, 15, 14, 15, 9, 8, 9, 14, 5, 6, 8, 6, 5, 12,
  9, 15, 5, 11, 6, 8, 13, 12, 5, 12, 13, 14, 11, 8, 5, 6]

/-- Message word selection of the right line (`n_`). -/
def rmdNR : List Nat := [
  5, 14, 7, 0, 9, 2, 11, 4, 13, 6, 15, 8, 1, 10, 3, 12,
  6, 11, 3, 7, 0, 13, 5, 10, 14, 15, 8, 12, 4, 9, 1, 2,
  15, 5, 1, 3, 7, 14, 6, 9, 11, 8, 12, 2, 10, 0, 4, 13,
  8, 6, 4, 1, 3, 11, 15, 0, 5, 12, 2, 13, 9, 7, 10, 14,
  12, 15, 10, 4, 1, 5, 8, 7, 6, 2, 13, 14, 0, 3, 9, 11]

/-- Rotation amounts of the right line (`r_`). -/
def rmdRR : List Nat := [
  8, 9, 9, 11, 13, 15, 15, 5, 7, 7, 8, 11, 14, 14, 12, 6,
  9, 13, 15, 7, 12, 8, 9, 11, 7, 7, 12, 7, 6, 15, 13, 11,
  9, 7, 15, 11, 8, 6, 6, 14, 12, 13, 5, 14, 13, 13, 7, 5,
  15, 5, 8, 11, 14, 14, 6, 14, 6, 9, 12, 9, 12, 5, 15, 8,
  8, 5, 12, 9, 12, 5, 14, 6, 8, 13, 6, 5, 15, 13, 11, 11]

/-- The boolean function of step `j` (five groups of sixteen steps). -/
def rmdF (j x y z : Nat) : Nat :=
  if j < 16 then x ^^^ y ^^^ z
  else if j < 32 then (x &&& y) ||| (not32 x &&& z)
  else if j < 48 then (x ||| not32 y) ^^^ z
  else if j < 64 then (x &&& z) ||| (y &&& not32 z)
  else x ^^^ (y ||| not32 z)

/-- The added constant of step `j`, left line. -/
def rmdKL (j : Nat) : Nat :=
  if j < 16 then 0 else if j < 32 then 0x5a827999 else if j < 48 then 0x6ed9eba1
  else if j < 64 then 0x8f1bbcdc else 0xa953fd4e

/-- The added constant of step `j`, right line. -/
def rmdKR (j : Nat) : Nat :=
  if j < 16 then 0x50a28be6 else if j < 32 then 0x5c4dd124 else if j < 48 then 0x6d703ef3
  else if j < 64 then 0x7a6d76e9 else 0

/-- The five working variables of RIPEMD-160. -/
structure RmdState where
  a : Nat
  b : Nat
  c : Nat
  d : Nat
  e : Nat
deriving DecidableEq, Repr

/-- Step `j` of the left line over the block words `x`. -/
def rmdStepL (x : List Nat) (s : RmdState) (j : Nat) : RmdState :=
  let t := (rotl ((s.a + rmdF j s.b s.c s.d + x.getD (rmdNL.getD j 0) 0 + rmdKL j) % mask32)
    (rmdRL.getD j 0) + s.e) % mask32
  ⟨s.e, t, s.b, rotl s.c 10, s.d⟩

/-- Step `j` of the right line over the block words `x`. -/
def rmdStepR (x : List Nat) (s : RmdState) (j : Nat) : RmdState :=
  let t := (rotl ((s.a + rmdF (79 - j) s.b s.c s.d + x.getD (rmdNR.getD j 0) 0 + rmdKR j) % mask32)
    (rmdRR.getD j 0) + s.e) % mask32
  ⟨s.e, t, s.b, rotl s.c 10, s.d⟩

/-- The compression function: both lines of 80 steps, then the combination. -/
def rmdBlock (h : RmdState) (blk : List Nat) : RmdState :=
  let x := blockWords leWord blk
  let l := (List.range 80).foldl (rmdStepL x) h
  let r := (List.range 80).foldl (rmdStepR x) h
  ⟨(h.b + l.c + r.d) % mask32, (h.c + l.d + r.e) % mask32, (h.d + l.e + r.a) % mask32,
   (h.e + l.a + r.b) % mask32, (h.a + l.b + r.c) % mask32⟩

/-- The initial value of RIPEMD-160. -/
def rmdInit : RmdState := ⟨0x67452301, 0xefcdab89, 0x98badcfe, 0x10325476, 0xc3d2e1f0⟩

/-- The digest size of RIPEMD-160 in bytes (`ripemd160.Size`). -/
def ripemd160Size : Nat := 20

/-- RIPEMD-160 of a byte string: a 20-byte digest. -/
def ripemd160 (m : List Byte) : List Byte :=
  let p := mdPad (fun i n => (n >>> (8 * i)) % 256) (m.map Fin.val)
  let s := (blocks p).foldl rmdBlock rmdInit
  wordLE s.a ++ wordLE s.b ++ wordLE s.c ++ wordLE s.d ++ wordLE s.e

/-! ## `math/big`: big-endian byte strings -/

/-- `big.Int.SetBytes`: the big-endian unsigned value of a byte slice. -/
def setBytes (b : List Byte) : Nat :=
  b.foldl (fun acc d => acc * 256 + d.val) 0

/-- Little-endian base-256 digits of `x`, least significant first; the
recursion is bounded by `fuel`. -/
def bytesLE : Nat → Nat → List Byte
  | 0, _ => []
  | fuel + 1, x =>
    if 0 < x then (⟨x % 256, Nat.mod_lt x (by decide)⟩ : Byte) :: bytesLE fuel (x / 256) else []

/-- `big.Int.Bytes`: the minimal big-endian byte string of `x` (empty for 0). -/
def bigBytes (x : Nat) : List Byte :=
  (bytesLE x x).reverse

/-! ## `btcutil/base58` -/

/-- The modified base-58 alphabet of `btcutil/base58`. -/
def alphabet : List Char :=
  "123456789ABCDEFGHJKLMNPQRSTUVWXYZabcdefghijkmnopqrstuvwxyz".data

/-- The character that stands for the digit 0 (`alphabetIdx0`). -/
def alphabetIdx0 : Char := '1'

/-- The big radix of the encoding (`bigRadix`). -/
def bigRadix : Nat := 58

/-- The first loop of `base58.Encode`: while `x > 0`, divide by 58 and append
the alphabet character of the remainder.  The list is in append order (least
significant digit first); `fuel` bounds the number of iterations. -/
def encodeLoop : Nat → Nat → List Char
  | 0, _ => []
  | fuel + 1, x =>
    if 0 < x then alphabet.getD (x % bigRadix) alphabetIdx0 :: encodeLoop fuel (x / bigRadix)
    else []

/-- The second loop of `base58.Encode`: one `alphabetIdx0` per leading zero
byte of the input, stopping at the first non-zero byte. -/
def leadingZeroChars : List Byte → List Char
  | [] => []
  | i :: rest => if i ≠ 0 then [] else alphabetIdx0 :: leadingZeroChars rest

/-- `base58.Encode`: digits of the big-endian value, then the leading-zero
markers, then the whole answer reversed. -/
def base58Encode (b : List Byte) : String :=
  let x := setBytes b
  let answer := encodeLoop x x ++ leadingZeroChars b
  String.mk answer.reverse

/-- The table `b58` of `base58.Decode`: the digit of an alphabet character,
255 for every other character. -/
def b58 (c : Char) : Nat :=
  if c ∈ alphabet then alphabet.indexOf c else 255

/-- The first loop of `base58.Decode`, from the last character to the first:
`answer += j * digit; j *= 58`; an unknown character aborts.  The argument is
the reversed input. -/
def decodeLoop : List Char → Nat → Nat → Option Nat
  | [], answer, _ => some answer
  | c :: rest, answer, j =>
    if b58 c = 255 then none else decodeLoop rest (answer + j * b58 c) (j * bigRadix)

/-- The second loop of `base58.Decode`: the number of leading `alphabetIdx0`
characters. -/
def numZeros : List Char → Nat
  | [] => 0
  | c :: rest => if c ≠ alphabetIdx0 then 0 else numZeros rest + 1

/-- `base58.Decode`: the empty slice for an input with a character outside
the alphabet, else `numZeros` zero bytes followed by the bytes of the value. -/
def base58Decode (s : String) : List Byte :=
  match decodeLoop s.data.reverse 0 1 with
  | none => []
  | some answer => List.replicate (numZeros s.data) 0 ++ bigBytes answer

/-- The first four bytes of the double SHA-256 of the input (`checksum`). -/
def checksum (input : List Byte) : List Byte :=
  let h := sha256 input
  let h2 := sha256 h
  h2.take 4

/-- `base58.CheckEncode`: the version byte, the payload, then the four
checksum bytes of both, base-58 encoded. -/
def checkEncode (input : List Byte) (version : Byte) : String :=
  let b := [version] ++ input
  let cksum := checksum b
  base58Encode (b ++ cksum)

/-- The two ways `base58.CheckDecode` rejects its input. -/
inductive CheckError where
  | invalidFormat
  | badChecksum
deriving DecidableEq, Repr

/-- `base58.CheckDecode`, the reverse of `CheckEncode`: base-58 decode, reject
fewer than 5 bytes, compare the trailing four bytes with the checksum of the
rest, and return the payload with the version byte. -/
def checkDecode (input : String) : Except CheckError (List Byte × Byte) :=
  let decoded := base58Decode input
  if decoded.length < 5 then .error .invalidFormat
  else
    let version := decoded.headD 0
    let cksum := decoded.drop (decoded.length - 4)
    if checksum (decoded.take (decoded.length - 4)) ≠ cksum then .error .badChecksum
    else .ok ((decoded.take (decoded.length - 4)).drop 1, version)

/-! ## `btcec`: keys and their serializations -/

/-- A public key: the affine coordinates of a curve point. -/
structure PublicKey where
  X : Nat
  Y : Nat
deriving DecidableEq, Repr

/-- A private key: the scalar `D` together with its public key. -/
structure PrivateKey where
  PublicKey : PublicKey
  D : Nat
deriving DecidableEq, Repr

/-- `PrivateKey.PubKey`: the public key held in the private key. -/
def PrivateKey.PubKey (p : PrivateKey) : BtcGo.PublicKey := p.PublicKey

/-- `paddedAppend`: `size - len(src)` zero bytes (none when `src` is longer),
then `src`, appended to `dst`. -/
def paddedAppend (size : Nat) (dst src : List Byte) : List Byte :=
  dst ++ List.replicate (size - src.length) 0 ++ src

/-- `PublicKey.SerializeCompressed`: the format byte `0x02`, or `0x03` when
`Y` is odd, followed by `X` as 32 big-endian bytes. -/
def PublicKey.SerializeCompressed (p : PublicKey) : List Byte :=
  let format : Byte := if p.Y % 2 = 1 then 0x02 ||| 0x01 else 0x02
  paddedAppend 32 [format] (bigBytes p.X)

/-- `PrivateKey.Serialize`: `D` as 32 big-endian bytes. -/
def PrivateKey.Serialize (p : PrivateKey) : List Byte :=
  paddedAppend 32 [] (bigBytes p.D)

/-! ## `btcnet` and `btcutil`: pay-to-pubkey-hash addresses -/

/-- The one field of `btcnet.Params` the program reads. -/
structure NetParams where
  PubKeyHashAddrID : Byte
deriving DecidableEq, Repr

/-- `btcnet.MainNetParams`: pay-to-pubkey-hash addresses carry version `0x00`. -/
def MainNetParams : NetParams := ⟨0x00⟩

/-- `btcutil.Hash160`: `ripemd160(sha256(b))`. -/
def Hash160 (buf : List Byte) : List Byte :=
  ripemd160 (sha256 buf)

/-- `btcutil.AddressPubKeyHash`: a 20-byte hash and a network identifier. -/
structure AddressPubKeyHash where
  hash : List Byte
  netID : Byte
deriving DecidableEq, Repr

/-- `btcutil.NewAddressPubKeyHash`: an error unless `pkHash` has exactly
`ripemd160.Size` bytes. -/
def NewAddressPubKeyHash (pkHash : List Byte) (net : NetParams) : Option AddressPubKeyHash :=
  if pkHash.length ≠ ripemd160Size then none
  else some ⟨pkHash, net.PubKeyHashAddrID⟩

/-- `encodeAddress`: check-encode the first `ripemd160.Size` bytes of the hash
under the network identifier. -/
def encodeAddress (hash160 : List Byte) (netID : Byte) : String :=
  checkEncode (hash160.take ripemd160Size) netID

/-- `AddressPubKeyHash.String` (which is `EncodeAddress`). -/
def AddressPubKeyHash.String (a : AddressPubKeyHash) : String :=
  encodeAddress a.hash a.netID

/-! ## `regexp`, `strings`, `bufio`, `encoding/hex` -/

/-- A compiled regular expression, known by the strings it matches. -/
structure Regexp where
  MatchString : String → Bool

/-- `unicode.IsSpace`. -/
def isSpace (c : Char) : Bool :=
  let n := c.toNat
  n = 0x09 || n = 0x0A || n = 0x0B || n = 0x0C || n = 0x0D || n = 0x20 || n = 0x85 || n = 0xA0 ||
  n = 0x1680 || (0x2000 ≤ n && n ≤ 0x200A) || n = 0x2028 || n = 0x2029 || n = 0x202F ||
  n = 0x205F || n = 0x3000

/-- `strings.TrimSpace`: drop leading and trailing white space. -/
def TrimSpace (s : String) : String :=
  String.mk ((s.data.dropWhile isSpace).reverse.dropWhile isSpace).reverse

/-- `bufio.Reader.ReadString('\n')` on the whole of standard input: the input
up to and including the first newline, or all of it when there is none. -/
def ReadString : List Char → List Char
  | [] => []
  | c :: rest => if c = '\n' then [c] else c :: ReadString rest

/-- `hex.EncodeToString`: two lowercase hexadecimal digits per byte. -/
def hexEncodeToString (b : List Byte) : String :=
  String.mk (b.flatMap fun x => [Nat.digitChar (x.val / 16), Nat.digitChar (x.val % 16)])

/-! ## The program -/

/-- What the program cannot decide by itself: the outcome of the `n`-th call
of `btcec.NewPrivateKey` on the system's randomness (`none` is its error), and
the regular expression compiler (`none` is a syntax error, for which
`regexp.Compile` returns a nil `*Regexp`). -/
structure Env where
  NewPrivateKey : Nat → Option PrivateKey
  Compile : String → Option Regexp

/-- The observable state of a run: how many times `generateKeyPair` has been
called, and what was written to standard output. -/
structure World where
  calls : Nat
  out : List String
deriving DecidableEq, Repr

/-- The state a run starts in. -/
def World.init : World := ⟨0, []⟩

/-- How a piece of the program ends: it returns a value; `log.Fatal` ends the
process; a run-time panic (nil pointer dereference) ends the process; or it is
still looping when the iteration budget of the model is used up. -/
inductive Outcome (α : Type) where
  | returned (a : α) (w : World)
  | fatal (w : World)
  | panicked (w : World)
  | running (w : World)
deriving DecidableEq, Repr

/-- Sequencing: continue only after a normal return. -/
def Outcome.bind {α β : Type} (o : Outcome α) (k : α → World → Outcome β) : Outcome β :=
  match o with
  | .returned a w => k a w
  | .fatal w => .fatal w
  | .panicked w => .panicked w
  | .running w => .running w

/-- `fmt.Print` of one string. -/
def World.print (w : World) (s : String) : World := { w with out := w.out ++ [s] }

/-- Lines 24-35.  `generateKeyPair` asks for a private key and ends the process
with `log.Fatal` on an error; else it returns `priv.PubKey(), priv`. -/
def generateKeyPair (env : Env) (w : World) : Outcome (PublicKey × PrivateKey) :=
  let w1 := { w with calls := w.calls + 1 }
  match env.NewPrivateKey w.calls with
  | none => .fatal w1
  | some priv => .returned (priv.PubKey, priv) w1

/-- Lines 40-55.  `generateAddr` hashes the compressed public key and wraps the
hash in an `AddressPubKeyHash` of the main network, ending the process with
`log.Fatal` on an error. -/
def generateAddr (pub : PublicKey) (w : World) : Outcome AddressPubKeyHash :=
  let net := MainNetParams
  let b := Hash160 pub.SerializeCompressed
  match NewAddressPubKeyHash b net with
  | none => .fatal w
  | some addr => .returned addr w

/-- The loop of lines 63-68, and again of lines 85-90: test the address of the
current pair against `r` and leave the loop on a match, else draw the next
pair.  `r` is a pointer: calling `MatchString` through a nil `r` panics.  Each
unit of `fuel` pays for one iteration. -/
def searchLoop (env : Env) (r : Option Regexp) :
    Nat → PublicKey → PrivateKey → World → Outcome (PublicKey × PrivateKey)
  | 0, _, _, w => .running w
  | fuel + 1, pub, priv, w =>
    (generateAddr pub w).bind fun addr w1 =>
      match r with
      | none => .panicked w1
      | some re =>
        if re.MatchString addr.String then .returned (pub, priv) w1
        else (generateKeyPair env w1).bind fun kp w2 => searchLoop env r fuel kp.1 kp.2 w2

/-- Lines 57-70.  `generateVanityAddress` draws a first pair, compiles the
pattern, returns `nil, nil` for a pattern that does not compile, and else
searches. -/
def generateVanityAddress (env : Env) (fuel : Nat) (pattern : String) (w : World) :
    Outcome (Option (PublicKey × PrivateKey)) :=
  (generateKeyPair env w).bind fun kp w1 =>
    match env.Compile pattern with
    | none => .returned none w1
    | some r => (searchLoop env (some r) fuel kp.1 kp.2 w1).bind fun res w2 => .returned (some res) w2

/-- The three lines printed at the end of `main` (lines 94-103). -/
def report (pub : PublicKey) (priv : PrivateKey) (w : World) : Outcome Unit :=
  let w1 := w.print ("This is a private key in hex:\t[" ++ hexEncodeToString priv.Serialize ++ "]\n")
  let w2 := w1.print
    ("This is a public key in hex:\t[" ++ hexEncodeToString pub.SerializeCompressed ++ "]\n")
  (generateAddr pub w2).bind fun addr w3 =>
    .returned () (w3.print ("This is the associated Bitcoin address:\t[" ++ addr.String ++ "]\n"))

/-- Lines 72-104.  `main` prompts, reads a line, draws a pair, trims the line;
for a non-empty line it draws another pair, compiles the line (printing a
notice when that fails, and going on), prints `Searching...` and searches;
finally it prints the pair and its address. -/
def main (env : Env) (fuel : Nat) (stdin : String) (w : World) : Outcome Unit :=
  let w0 := w.print "Enter pattern, or nothing for non-vanity address: "
  let text := String.mk (ReadString stdin.data)
  (generateKeyPair env w0).bind fun kp w1 =>
    let text := TrimSpace text
    if text.length ≠ 0 then
      (generateKeyPair env w1).bind fun kp2 w2 =>
        let r := env.Compile text
        let w3 := if r.isNone then
            w2.print "Invalid regex, generating non-vanity address instead."
          else w2
        let w4 := w3.print "Searching...\n"
        (searchLoop env r fuel kp2.1 kp2.2 w4).bind fun res w5 => report res.1 res.2 w5
    else report kp.1 kp.2 w1

/-- The value of the expression `generateAddr(pub).String()` of lines 64 and
86; the empty string stands for a run that `log.Fatal` ended first. -/
def addrString (pub : PublicKey) : String :=
  match generateAddr pub World.init with
  | .returned addr _ => addr.String
  | _ => ""

/-! ## Sample inputs -/

/-- The private key 1, whose public key is the generator of secp256k1. -/
def keyOne : PrivateKey :=
  ⟨⟨0x79BE667EF9DCBBAC55A06295CE870B07029BFCDB2DCE28D959F2815B16F81798,
    0x483ADA7726A3C4655DA4FBFC0E1108A8FD17B448A68554199C47D08FFB10D4B8⟩, 1⟩

/-- The private key 2, whose public key is twice the generator. -/
def keyTwo : PrivateKey :=
  ⟨⟨0xC6047F9441ED7D6D3045406E95C07CD85C778E4B8CEF3CA7ABAC09B95C709EE5,
    0x1AE168FEA63DC339A3C58419466CEAEEF7F632653266D0E1236431A950CFE52A⟩, 2⟩

/-- A randomness source that yields the private key 1 first and the private
key 2 ever after. -/
def sampleKeys (n : Nat) : PrivateKey := if n = 0 then keyOne else keyTwo

/-- The regular expression `^lit` for a literal `lit`: the strings that start
with `lit`. -/
def anchoredLiteral (lit : String) : Regexp :=
  ⟨fun s => decide (s.data.take lit.length = lit.data)⟩

/-- The regular expression of a single literal character: the strings that
contain it. -/
def containsChar (c : Char) : Regexp := ⟨fun s => decide (c ∈ s.data)⟩

/-- The empty regular expression: every string. -/
def matchAll : Regexp := ⟨fun _ => true⟩

/-- What `regexp.Compile` answers on the patterns the examples use; every other
pattern is taken as rejected, as `[unterminated` is (a character class that is
never closed). -/
def sampleCompile (pattern : String) : Option Regexp :=
  if pattern = "" then some matchAll
  else if pattern = "^1c" then some (anchoredLiteral "1c")
  else if pattern = "^3" then some (anchoredLiteral "3")
  else if pattern = "0" then some (containsChar '0')
  else none

/-- A sample environment: the keys of `sampleKeys`, never an error. -/
def sampleEnv : Env := ⟨fun n => some (sampleKeys n), sampleCompile⟩

/-- A sample environment whose key generation fails from the second call on. -/
def failingEnv : Env := ⟨fun n => if n = 0 then some keyOne else none, sampleCompile⟩

/-! ## Facts about the byte and base-58 conversions -/

theorem setBytes_foldl (b : List Byte) (a : Nat) :
    b.foldl (fun acc d => acc * 256 + d.val) a
      = a * 256 ^ b.length + Nat.ofDigits 256 (b.reverse.map Fin.val) := by
  induction b generalizing a with
  | nil => simp
  | cons d t ih =>
    simp only [List.foldl_cons, List.length_cons, List.reverse_cons, List.map_append,
      List.map_cons, List.map_nil, Nat.ofDigits_append, Nat.ofDigits_singleton,
      List.length_map, List.length_reverse]
    rw [ih]
    ring

theorem setBytes_eq_ofDigits (b : List Byte) :
    setBytes b = Nat.ofDigits 256 (b.reverse.map Fin.val) := by
  simp [setBytes, setBytes_foldl]

theorem bytesLE_eq_digits (fuel x : Nat) (h : x ≤ fuel) :
    (bytesLE fuel x).map Fin.val = Nat.digits 256 x := by
  induction fuel generalizing x with
  | zero =>
    have : x = 0 := by omega
    subst this
    simp [bytesLE]
  | succ n ih =>
    unfold bytesLE
    by_cases hx : 0 < x
    · rw [if_pos hx, Nat.digits_def' (by decide) hx]
      have hdiv : x / 256 ≤ n := by
        have : x / 256 < x := Nat.div_lt_self hx (by decide)
        omega
      simp [ih _ hdiv]
    · have : x = 0 := by omega
      subst this
      simp

/-- The character of a base-58 digit. -/
theorem encodeLoop_eq_digits (fuel x : Nat) (h : x ≤ fuel) :
    encodeLoop fuel x = (Nat.digits 58 x).map (fun d => alphabet.getD d alphabetIdx0) := by
  induction fuel generalizing x with
  | zero =>
    have : x = 0 := by omega
    subst this
    simp [encodeLoop]
  | succ n ih =>
    unfold encodeLoop
    by_cases hx : 0 < x
    · rw [if_pos hx, Nat.digits_def' (by decide) hx]
      have hdiv : x / 58 ≤ n := by
        have : x / 58 < x := Nat.div_lt_self hx (by decide)
        omega
      simp [bigRadix, ih _ hdiv]
    · have : x = 0 := by omega
      subst this
      simp

theorem b58_alphabet : ∀ d, d < 58 → b58 (alphabet.getD d alphabetIdx0) = d := by
  decide

theorem alphabet_getD_mem : ∀ d, d < 58 → alphabet.getD d alphabetIdx0 ∈ alphabet := by
  decide

theorem alphabet_getD_ne_idx0 : ∀ d, d < 58 → d ≠ 0 → alphabet.getD d alphabetIdx0 ≠ alphabetIdx0 := by
  decide

theorem ofDigits_replicate_zero (b k : Nat) : Nat.ofDigits b (List.replicate k 0) = 0 := by
  induction k with
  | zero => simp
  | succ n ih => simp [List.replicate_succ, Nat.ofDigits_cons, ih]

theorem decodeLoop_digits (l : List Nat) (hl : ∀ d ∈ l, d < 58) (a j : Nat) :
    decodeLoop (l.map fun d => alphabet.getD d alphabetIdx0) a j
      = some (a + j * Nat.ofDigits 58 l) := by
  induction l generalizing a j with
  | nil => simp [decodeLoop]
  | cons d t ih =>
    have hd : d < 58 := hl d (List.mem_cons_self _ _)
    have ht : ∀ e ∈ t, e < 58 := fun e he => hl e (List.mem_cons_of_mem _ he)
    simp only [List.map_cons, decodeLoop, b58_alphabet d hd]
    rw [if_neg (by omega), ih ht, Nat.ofDigits_cons, bigRadix]
    congr 1
    ring

/-- The number of leading zero bytes. -/
theorem leadingZeroChars_eq (b : List Byte) :
    leadingZeroChars b = List.replicate (b.takeWhile (· = 0)).length alphabetIdx0 := by
  induction b with
  | nil => simp [leadingZeroChars]
  | cons d t ih =>
    unfold leadingZeroChars
    by_cases hd : d = 0
    · simp [hd, ih, List.replicate_succ]
    · simp [hd]

theorem numZeros_replicate_append (k : Nat) (t : List Char) :
    numZeros (List.replicate k alphabetIdx0 ++ t) = k + numZeros t := by
  induction k with
  | zero => simp
  | succ n ih =>
    rw [List.replicate_succ, List.cons_append, numZeros, if_neg (by simp), ih]
    omega

theorem numZeros_digits_reverse (l : List Nat) (hl : ∀ d ∈ l, d < 58)
    (hlast : ∀ h : l ≠ [], l.getLast h ≠ 0) :
    numZeros (l.map fun d => alphabet.getD d alphabetIdx0).reverse = 0 := by
  rcases List.eq_nil_or_concat l with h | ⟨t, d, h⟩
  · subst h
    simp [numZeros]
  · subst h
    have hd : d < 58 := hl d (by simp)
    have hd0 : d ≠ 0 := by
      have := hlast (by simp)
      simpa using this
    have hne := alphabet_getD_ne_idx0 d hd hd0
    simpa [numZeros] using hne

theorem digits_setBytes (b : List Byte) :
    Nat.digits 256 (setBytes b) = (b.dropWhile (· = 0)).reverse.map Fin.val := by
  induction b with
  | nil => simp [setBytes]
  | cons d t ih =>
    by_cases hd : d = 0
    · have hs : setBytes (d :: t) = setBytes t := by
        simp [setBytes_eq_ofDigits, Nat.ofDigits_append, hd]
      rw [hs, ih]
      simp [List.dropWhile, hd]
    · have hdw : (d :: t).dropWhile (· = 0) = d :: t := by simp [List.dropWhile, hd]
      rw [hdw, setBytes_eq_ofDigits]
      apply Nat.digits_ofDigits 256 (by decide)
      · intro x hx
        simp only [List.mem_map] at hx
        obtain ⟨y, _, rfl⟩ := hx
        exact y.isLt
      · intro h
        have hv : d.val ≠ 0 := fun h0 => hd (Fin.ext h0)
        simpa using hv

theorem bigBytes_setBytes (b : List Byte) :
    bigBytes (setBytes b) = b.dropWhile (· = 0) := by
  have h := bytesLE_eq_digits (setBytes b) (setBytes b) (le_refl _)
  rw [digits_setBytes] at h
  have hinj : bytesLE (setBytes b) (setBytes b) = (b.dropWhile (· = 0)).reverse :=
    List.map_injective_iff.mpr Fin.val_injective h
  simp [bigBytes, hinj]

theorem takeWhile_zero_eq (b : List Byte) :
    b.takeWhile (· = 0) = List.replicate (b.takeWhile (· = 0)).length 0 := by
  rw [List.eq_replicate_iff]
  refine ⟨rfl, fun x hx => ?_⟩
  simpa using List.mem_takeWhile_imp hx

/-- The characters of an encoding: the markers of the leading zero bytes, then the
digits of the value, most significant first. -/
theorem base58Encode_data (b : List Byte) :
    (base58Encode b).data
      = List.replicate (b.takeWhile (· = 0)).length alphabetIdx0
        ++ ((Nat.digits 58 (setBytes b)).map fun d => alphabet.getD d alphabetIdx0).reverse := by
  simp [base58Encode, encodeLoop_eq_digits _ _ (le_refl _), leadingZeroChars_eq]

/-- Decoding undoes encoding, for every byte string. -/
theorem base58Decode_encode (b : List Byte) : base58Decode (base58Encode b) = b := by
  have hdig : ∀ d ∈ Nat.digits 58 (setBytes b), d < 58 :=
    fun d hd => Nat.digits_lt_base (by decide) hd
  have hlast : ∀ h : Nat.digits 58 (setBytes b) ≠ [],
      (Nat.digits 58 (setBytes b)).getLast h ≠ 0 := by
    intro h
    exact Nat.getLast_digit_ne_zero 58 (Nat.digits_ne_nil_iff_ne_zero.mp h)
  have hrev : (base58Encode b).data.reverse
      = (Nat.digits 58 (setBytes b) ++ List.replicate (b.takeWhile (· = 0)).length 0).map
          fun d => alphabet.getD d alphabetIdx0 := by
    rw [base58Encode_data]
    simp [alphabet, alphabetIdx0]
  have hall : ∀ d ∈ Nat.digits 58 (setBytes b) ++ List.replicate (b.takeWhile (· = 0)).length 0,
      d < 58 := by
    intro d hd
    rcases List.mem_append.mp hd with h | h
    · exact hdig d h
    · rw [(List.mem_replicate.mp h).2]
      decide
  have hdec : decodeLoop (base58Encode b).data.reverse 0 1 = some (setBytes b) := by
    rw [hrev, decodeLoop_digits _ hall]
    simp [Nat.ofDigits_append, ofDigits_replicate_zero, Nat.ofDigits_digits]
  have hnz : numZeros (base58Encode b).data = (b.takeWhile (· = 0)).length := by
    rw [base58Encode_data, numZeros_replicate_append, numZeros_digits_reverse _ hdig hlast]
    rfl
  unfold base58Decode
  rw [hdec]
  simp only [hnz, bigBytes_setBytes]
  rw [← takeWhile_zero_eq]
  exact List.takeWhile_append_dropWhile _ _

/-! ## Facts about the hashes and the address -/

theorem sha256_length (m : List Byte) : (sha256 m).length = 32 := by
  simp [sha256, wordBE]

theorem ripemd160_length (m : List Byte) : (ripemd160 m).length = 20 := by
  simp [ripemd160, wordLE]

theorem checksum_length (input : List Byte) : (checksum input).length = 4 := by
  simp [checksum, sha256_length]

theorem Hash160_length (buf : List Byte) : (Hash160 buf).length = 20 := by
  simp [Hash160, ripemd160_length]

/-- The derivation never reaches its `log.Fatal`: the hash has the 20 bytes
`NewAddressPubKeyHash` asks for. -/
theorem generateAddr_returned (pub : PublicKey) (w : World) :
    generateAddr pub w
      = .returned ⟨Hash160 pub.SerializeCompressed, MainNetParams.PubKeyHashAddrID⟩ w := by
  simp [generateAddr, NewAddressPubKeyHash, Hash160_length, ripemd160Size]

/-- The address string of a public key, as `generateAddr(pub).String()` computes it. -/
theorem addrString_eq (pub : PublicKey) :
    (AddressPubKeyHash.mk (Hash160 pub.SerializeCompressed) MainNetParams.PubKeyHashAddrID).String
      = base58Encode ([0] ++ Hash160 pub.SerializeCompressed
          ++ (sha256 (sha256 ([0] ++ Hash160 pub.SerializeCompressed))).take 4) := by
  have h : (Hash160 pub.SerializeCompressed).take ripemd160Size
      = Hash160 pub.SerializeCompressed :=
    List.take_of_length_le (by rw [Hash160_length]; decide)
  simp only [AddressPubKeyHash.String, encodeAddress, checkEncode, checksum, h, MainNetParams]

/-- Every character of an encoding is in the alphabet. -/
theorem base58Encode_mem_alphabet (b : List Byte) :
    ∀ c ∈ (base58Encode b).data, c ∈ alphabet := by
  intro c hc
  rw [base58Encode_data] at hc
  rcases List.mem_append.mp hc with h | h
  · rw [(List.mem_replicate.mp h).2]
    decide
  · rw [List.mem_reverse, List.mem_map] at h
    obtain ⟨d, hd, rfl⟩ := h
    exact alphabet_getD_mem d (Nat.digits_lt_base (by decide) hd)

/-- An encoding of bytes that start with a zero byte starts with `1`. -/
theorem base58Encode_zero_head (t : List Byte) :
    (base58Encode (0 :: t)).data.head? = some alphabetIdx0 := by
  rw [base58Encode_data]
  simp [List.takeWhile, List.replicate_succ]

theorem addrString_eq_base58 (pub : PublicKey) :
    addrString pub = base58Encode ([0] ++ Hash160 pub.SerializeCompressed
      ++ (sha256 (sha256 ([0] ++ Hash160 pub.SerializeCompressed))).take 4) := by
  simp only [addrString, generateAddr_returned, addrString_eq]

/-! ## Facts about the search loop -/

theorem generateKeyPair_some (env : Env) (w : World) (k : PrivateKey)
    (h : env.NewPrivateKey w.calls = some k) :
    generateKeyPair env w = .returned (k.PubKey, k) ⟨w.calls + 1, w.out⟩ := by
  simp [generateKeyPair, h]

theorem generateKeyPair_none (env : Env) (w : World) (h : env.NewPrivateKey w.calls = none) :
    generateKeyPair env w = .fatal ⟨w.calls + 1, w.out⟩ := by
  simp [generateKeyPair, h]

theorem addrString_of_returned (pub : PublicKey) :
    (AddressPubKeyHash.mk (Hash160 pub.SerializeCompressed) MainNetParams.PubKeyHashAddrID).String
      = addrString pub := by
  simp only [addrString, generateAddr_returned]

/-- An iteration whose address matches leaves the loop with the current pair. -/
theorem searchLoop_match (env : Env) (r : Regexp) (fuel : Nat) (pub : PublicKey)
    (priv : PrivateKey) (w : World) (h : r.MatchString (addrString pub) = true) :
    searchLoop env (some r) (fuel + 1) pub priv w = .returned (pub, priv) w := by
  simp [searchLoop, generateAddr_returned, Outcome.bind, addrString_of_returned, h]

/-- An iteration whose address does not match draws the next pair and goes on. -/
theorem searchLoop_next (env : Env) (r : Regexp) (fuel : Nat) (pub : PublicKey)
    (priv k : PrivateKey) (w : World) (h : r.MatchString (addrString pub) = false)
    (hk : env.NewPrivateKey w.calls = some k) :
    searchLoop env (some r) (fuel + 1) pub priv w
      = searchLoop env (some r) fuel k.PubKey k ⟨w.calls + 1, w.out⟩ := by
  simp [searchLoop, generateAddr_returned, Outcome.bind, addrString_of_returned, h,
    generateKeyPair_some env w k hk]

/-- An iteration whose address does not match and whose draw fails ends the
process. -/
theorem searchLoop_fatal (env : Env) (r : Regexp) (fuel : Nat) (pub : PublicKey)
    (priv : PrivateKey) (w : World) (h : r.MatchString (addrString pub) = false)
    (hk : env.NewPrivateKey w.calls = none) :
    searchLoop env (some r) (fuel + 1) pub priv w = .fatal ⟨w.calls + 1, w.out⟩ := by
  simp [searchLoop, generateAddr_returned, Outcome.bind, addrString_of_returned, h,
    generateKeyPair_none env w hk]

/-- Any iteration through a nil regular expression panics. -/
theorem searchLoop_nil (env : Env) (fuel : Nat) (pub : PublicKey) (priv : PrivateKey)
    (w : World) : searchLoop env none (fuel + 1) pub priv w = .panicked w := by
  simp [searchLoop, generateAddr_returned, Outcome.bind]

/-- The loop runs through `m` pairs that do not match. -/
theorem searchLoop_skip (env : Env) (r : Regexp) (keys : Nat → PrivateKey) (m : Nat) :
    ∀ (i fuel : Nat) (out : List String),
      (∀ j, i ≤ j → j < i + m → r.MatchString (addrString (keys j).PubKey) = false) →
      (∀ j, i < j → j ≤ i + m → env.NewPrivateKey j = some (keys j)) →
      searchLoop env (some r) (fuel + m) (keys i).PubKey (keys i) ⟨i + 1, out⟩
        = searchLoop env (some r) fuel (keys (i + m)).PubKey (keys (i + m)) ⟨i + m + 1, out⟩ := by
  induction m with
  | zero => intro i fuel out _ _; rfl
  | succ n ih =>
    intro i fuel out hno hk
    have h1 := searchLoop_next env r (fuel + n) (keys i).PubKey (keys i) (keys (i + 1))
      ⟨i + 1, out⟩ (hno i (le_refl _) (by omega)) (hk (i + 1) (by omega) (by omega))
    have h2 := ih (i + 1) fuel out (fun j h1 h2 => hno j (by omega) (by omega))
      (fun j h1 h2 => hk j (by omega) (by omega))
    rw [show fuel + (n + 1) = fuel + n + 1 by omega, h1, h2]
    rw [show i + 1 + n = i + (n + 1) by omega]

/-- Check-decoding undoes check-encoding, for every payload and version. -/
theorem checkDecode_checkEncode (input : List Byte) (version : Byte) :
    checkDecode (checkEncode input version) = .ok (input, version) := by
  have hlen : (checksum (version :: input)).length = 4 := checksum_length _
  have hdrop : ((version :: input) ++ checksum (version :: input)).length - 4
      = (version :: input).length := by
    simp [hlen]
  unfold checkDecode checkEncode
  simp only [base58Decode_encode, List.singleton_append, hdrop, List.take_left',
    List.drop_left']
  simp [hlen]

/-- A regular expression that matches no address never lets the loop return. -/
theorem searchLoop_never_returned (env : Env) (r : Regexp)
    (hno : ∀ pub, r.MatchString (addrString pub) = false) (fuel : Nat) :
    ∀ (pub : PublicKey) (priv : PrivateKey) (w : World) (res : PublicKey × PrivateKey)
      (w2 : World), searchLoop env (some r) fuel pub priv w ≠ .returned res w2 := by
  induction fuel with
  | zero => intro pub priv w res w2; simp [searchLoop]
  | succ n ih =>
    intro pub priv w res w2
    cases hk : env.NewPrivateKey w.calls with
    | none =>
      rw [searchLoop_fatal env r n pub priv w (hno pub) hk]
      simp
    | some k =>
      rw [searchLoop_next env r n pub priv k w (hno pub) hk]
      exact ih _ _ _ _ _

/-- After the first draw and a successful compilation, `generateVanityAddress`
is the loop started on the first pair. -/
theorem generateVanityAddress_compiled (env : Env) (fuel : Nat) (pattern : String) (w : World)
    (k : PrivateKey) (r : Regexp) (hk : env.NewPrivateKey w.calls = some k)
    (hc : env.Compile pattern = some r) :
    generateVanityAddress env fuel pattern w
      = (searchLoop env (some r) fuel k.PubKey k ⟨w.calls + 1, w.out⟩).bind
          fun res w2 => .returned (some res) w2 := by
  simp [generateVanityAddress, generateKeyPair_some env w k hk, Outcome.bind, hc]

theorem dropWhile_all {α : Type} (p : α → Bool) (l : List α) (h : ∀ x ∈ l, p x = true) :
    l.dropWhile p = [] := by
  induction l with
  | nil => rfl
  | cons a t ih =>
    have ha : p a = true := h a (List.mem_cons_self _ _)
    simp only [List.dropWhile, ha]
    exact ih fun x hx => h x (List.mem_cons_of_mem _ hx)

/-- A line of white space trims to the empty string. -/
theorem TrimSpace_of_spaces (s : String) (h : ∀ c ∈ s.data, isSpace c = true) :
    TrimSpace s = "" := by
  simp [TrimSpace, dropWhile_all isSpace s.data h]

/-- With a line that trims to nothing, `main` prints the pair of its one draw. -/
theorem main_no_pattern (env : Env) (fuel : Nat) (stdin : String) (w : World) (k : PrivateKey)
    (ht : TrimSpace (String.mk (ReadString stdin.data)) = "")
    (hk : env.NewPrivateKey w.calls = some k) :
    main env fuel stdin w
      = .returned () ⟨w.calls + 1, w.out ++
          ["Enter pattern, or nothing for non-vanity address: ",
           "This is a private key in hex:\t[" ++ hexEncodeToString k.Serialize ++ "]\n",
           "This is a public key in hex:\t["
             ++ hexEncodeToString k.PubKey.SerializeCompressed ++ "]\n",
           "This is the associated Bitcoin address:\t[" ++ addrString k.PubKey ++ "]\n"]⟩ := by
  have hk2 : env.NewPrivateKey (w.print
      "Enter pattern, or nothing for non-vanity address: ").calls = some k := hk
  simp only [main, ht, generateKeyPair_some env _ k hk2, Outcome.bind]
  simp [report, generateAddr_returned, addrString_of_returned, World.print, Outcome.bind]

/-- With a line that does not compile, `main` prints its notice and
`Searching...`, and panics in the first iteration of the loop. -/
theorem main_invalid_pattern (env : Env) (fuel : Nat) (stdin : String) (w : World)
    (k0 k1 : PrivateKey)
    (ht : (TrimSpace (String.mk (ReadString stdin.data))).length ≠ 0)
    (hc : env.Compile (TrimSpace (String.mk (ReadString stdin.data))) = none)
    (hk0 : env.NewPrivateKey w.calls = some k0)
    (hk1 : env.NewPrivateKey (w.calls + 1) = some k1) :
    main env (fuel + 1) stdin w
      = .panicked ⟨w.calls + 2, w.out ++
          ["Enter pattern, or nothing for non-vanity address: ",
           "Invalid regex, generating non-vanity address instead.",
           "Searching...\n"]⟩ := by
  have hk0' : env.NewPrivateKey (w.print
      "Enter pattern, or nothing for non-vanity address: ").calls = some k0 := hk0
  have hk1' : env.NewPrivateKey (World.mk ((w.print
      "Enter pattern, or nothing for non-vanity address: ").calls + 1) (w.print
      "Enter pattern, or nothing for non-vanity address: ").out).calls = some k1 := hk1
  simp only [main, generateKeyPair_some env _ k0 hk0', Outcome.bind, if_pos ht,
    generateKeyPair_some env _ k1 hk1', hc, searchLoop_nil]
  simp [World.print]

/-! ## The claims -/

/-- C1. For every public key, `generateAddr` returns an address whose string is
the base-58 encoding of the 25 bytes `v ++ h ++ c`: `v` the version byte `0x00`
of the main network, `h` the 20 bytes `RIPEMD160(SHA256(SerializeCompressed(pub)))`
and `c` the first 4 bytes of `SHA256(SHA256(v ++ h))`. -/
theorem generateAddr_string_is_base58check (pub : PublicKey) (w : World) :
    ∃ addr, generateAddr pub w = .returned addr w ∧
      (ripemd160 (sha256 pub.SerializeCompressed)).length = 20 ∧
      ((sha256 (sha256 ([(0x00 : Byte)] ++ ripemd160 (sha256 pub.SerializeCompressed)))).take 4).length
        = 4 ∧
      ([(0x00 : Byte)] ++ ripemd160 (sha256 pub.SerializeCompressed)
        ++ (sha256 (sha256 ([(0x00 : Byte)] ++ ripemd160 (sha256 pub.SerializeCompressed)))).take
          4).length = 25 ∧
      addr.String = base58Encode
        ([(0x00 : Byte)] ++ ripemd160 (sha256 pub.SerializeCompressed)
          ++ (sha256 (sha256 ([(0x00 : Byte)] ++ ripemd160 (sha256 pub.SerializeCompressed)))).take
            4) := by
  refine ⟨_, generateAddr_returned pub w, ripemd160_length _, ?_, ?_, ?_⟩
  · simp [sha256_length]
  · simp [sha256_length, ripemd160_length]
  · exact addrString_eq pub

/-- C2. Round trip: for every public key, base-58 decoding the address string
and verifying its trailing 4-byte checksum succeeds and yields exactly the
version byte and the 20 hash bytes held in the address, which are the Hash160
of the compressed public key. -/
theorem generateAddr_string_roundtrip (pub : PublicKey) (w : World) :
    ∃ addr, generateAddr pub w = .returned addr w ∧
      addr.hash = Hash160 pub.SerializeCompressed ∧
      addr.hash.length = 20 ∧
      addr.netID = MainNetParams.PubKeyHashAddrID ∧
      checkDecode addr.String = .ok (addr.hash, addr.netID) := by
  refine ⟨_, generateAddr_returned pub w, rfl, Hash160_length _, rfl, ?_⟩
  have h : (Hash160 pub.SerializeCompressed).take ripemd160Size
      = Hash160 pub.SerializeCompressed :=
    List.take_of_length_le (by rw [Hash160_length]; decide)
  simp only [AddressPubKeyHash.String, encodeAddress, h]
  exact checkDecode_checkEncode _ _

/-- C7, as the claim states it, fails for the public key of the private key 1:
the hash in its address is `751e76e8...`, the RIPEMD-160 of the SHA-256 digest,
while the RIPEMD-160 of the 33 serialization bytes themselves is another
string. -/
theorem generateAddr_hash_is_not_ripemd160_of_serialization :
    generateAddr keyOne.PubKey World.init
        = .returned ⟨[0x75, 0x1e, 0x76, 0xe8, 0x19, 0x91, 0x96, 0xd4, 0x54, 0x94, 0x1c, 0x45, 0xd1,
            0xb3, 0xa3, 0x23, 0xf1, 0x43, 0x3b, 0xd6], 0x00⟩ World.init ∧
      ripemd160 keyOne.PubKey.SerializeCompressed
        ≠ [0x75, 0x1e, 0x76, 0xe8, 0x19, 0x91, 0x96, 0xd4, 0x54, 0x94, 0x1c, 0x45, 0xd1,
            0xb3, 0xa3, 0x23, 0xf1, 0x43, 0x3b, 0xd6] := by
  constructor
  · decide
  · decide

/-- C7, amended. For every public key, the 20-byte hash that `generateAddr`
puts in the address is RIPEMD-160 applied to the SHA-256 digest of the
compressed serialization, not to the serialization bytes themselves. -/
theorem generateAddr_hash_is_ripemd160_of_sha256 (pub : PublicKey) (w : World) :
    ∃ addr, generateAddr pub w = .returned addr w ∧
      addr.hash = ripemd160 (sha256 pub.SerializeCompressed) ∧ addr.hash.length = 20 := by
  exact ⟨_, generateAddr_returned pub w, rfl, ripemd160_length _⟩

/-- C3. For a pattern that compiles and a sequence of generated pairs of which
some pair's address matches, `generateVanityAddress` returns, as soon as the
iteration budget exceeds the least matching index `i`, the pair `k_i` after
`i + 1` draws; the address of `k_i` matches and no earlier address does. -/
theorem generateVanityAddress_returns_first_match (env : Env) (pattern : String) (r : Regexp)
    (keys : Nat → PrivateKey)
    (hc : env.Compile pattern = some r)
    (hk : ∀ n, env.NewPrivateKey n = some (keys n))
    (hex : ∃ i, r.MatchString (addrString (keys i).PubKey) = true)
    (fuel : Nat) (hfuel : Nat.find hex < fuel) :
    generateVanityAddress env fuel pattern World.init
        = .returned (some ((keys (Nat.find hex)).PubKey, keys (Nat.find hex)))
            ⟨Nat.find hex + 1, []⟩ ∧
      r.MatchString (addrString (keys (Nat.find hex)).PubKey) = true ∧
      ∀ j, j < Nat.find hex → r.MatchString (addrString (keys j).PubKey) = false := by
  have hmin : ∀ j, j < Nat.find hex → r.MatchString (addrString (keys j).PubKey) = false := by
    intro j hj
    have := Nat.find_min hex hj
    simpa using this
  refine ⟨?_, Nat.find_spec hex, hmin⟩
  obtain ⟨f, hf⟩ : ∃ f, fuel = f + 1 + Nat.find hex := ⟨fuel - 1 - Nat.find hex, by omega⟩
  have hskip := searchLoop_skip env r keys (Nat.find hex) 0 (f + 1) []
    (fun j _ h2 => hmin j (by omega)) (fun j _ _ => hk j)
  simp only [Nat.zero_add] at hskip
  rw [generateVanityAddress_compiled env fuel pattern World.init (keys 0) r (hk 0) hc, hf]
  simp only [World.init, Nat.zero_add]
  rw [hskip, searchLoop_match env r f _ _ _ (Nat.find_spec hex)]
  rfl

/-- Witness for C3: the source yields key 1 and then key 2; the pattern `^1c`
is first matched by the address of key 2, at index 1. -/
theorem generateVanityAddress_returns_first_match_witness :
    generateVanityAddress sampleEnv 2 "^1c" World.init
      = .returned (some (keyTwo.PubKey, keyTwo)) ⟨2, []⟩ := by
  have hex : ∃ i, (anchoredLiteral "1c").MatchString (addrString (sampleKeys i).PubKey) = true :=
    ⟨1, by decide⟩
  have hfind : Nat.find hex = 1 := by
    rw [Nat.find_eq_iff]
    refine ⟨by decide, ?_⟩
    intro n hn
    have : n = 0 := by omega
    subst this
    decide
  have h := (generateVanityAddress_returns_first_match sampleEnv "^1c" (anchoredLiteral "1c")
    sampleKeys rfl (fun _ => rfl) hex 2 (by omega)).1
  rw [hfind] at h
  exact h

/-- C4, as the claim states it, fails on the pattern `[unterminated`: the
function returns no pair, but one pair has been drawn by then. -/
theorem generateVanityAddress_invalid_pattern_has_drawn :
    sampleEnv.Compile "[unterminated" = none ∧
      generateVanityAddress sampleEnv 1 "[unterminated" World.init = .returned none ⟨1, []⟩ ∧
      generateVanityAddress sampleEnv 1 "[unterminated" World.init ≠ .returned none ⟨0, []⟩ :=
  ⟨rfl, by decide, by decide⟩

/-- C4, amended. For a pattern that does not compile, `generateVanityAddress`
returns no pair and never enters the loop; it does so after exactly one call of
`generateKeyPair`, made before the pattern is compiled, whose pair is dropped
(provided that call succeeds). -/
theorem generateVanityAddress_invalid_pattern (env : Env) (fuel : Nat) (pattern : String)
    (w : World) (k : PrivateKey)
    (hc : env.Compile pattern = none)
    (hk : env.NewPrivateKey w.calls = some k) :
    generateVanityAddress env fuel pattern w = .returned none ⟨w.calls + 1, w.out⟩ := by
  simp [generateVanityAddress, generateKeyPair_some env w k hk, Outcome.bind, hc]

/-- Witness for C4, amended, on the pattern `[unterminated`. -/
theorem generateVanityAddress_invalid_pattern_witness :
    sampleEnv.Compile "[unterminated" = none ∧
      sampleEnv.NewPrivateKey World.init.calls = some keyOne ∧
      generateVanityAddress sampleEnv 0 "[unterminated" World.init
        = .returned none ⟨World.init.calls + 1, World.init.out⟩ :=
  ⟨rfl, rfl,
    generateVanityAddress_invalid_pattern sampleEnv 0 "[unterminated" World.init keyOne
      rfl rfl⟩

/-- C5 fails on the input line `[unterminated`: `main` prints its notice and
`Searching...`, and then panics on the nil regular expression in the first
iteration of the loop; nothing of a pair is printed. -/
theorem main_invalid_pattern_panics (fuel : Nat) :
    main sampleEnv (fuel + 1) "[unterminated\n" World.init
      = .panicked ⟨2, ["Enter pattern, or nothing for non-vanity address: ",
          "Invalid regex, generating non-vanity address instead.",
          "Searching...\n"]⟩ := by
  have h := main_invalid_pattern sampleEnv fuel "[unterminated\n" World.init keyOne keyTwo
    (by decide) rfl rfl rfl
  simpa [World.init] using h

/-- C6. With the empty pattern, which compiles to an expression that matches
every string, `generateVanityAddress` returns the first generated pair after a
single call of `generateKeyPair`, for every positive iteration budget; and
`main`, on an empty or white-space-only line, draws one pair, does not enter the
search loop and prints that pair and its address. -/
theorem empty_pattern_single_cycle (env : Env) (r : Regexp) (k : PrivateKey)
    (hc : env.Compile "" = some r)
    (hall : ∀ s, r.MatchString s = true)
    (hk : env.NewPrivateKey 0 = some k) :
    (∀ fuel, generateVanityAddress env (fuel + 1) "" World.init
        = .returned (some (k.PubKey, k)) ⟨1, []⟩) ∧
      ∀ (fuel : Nat) (stdin : String), (∀ c ∈ ReadString stdin.data, isSpace c = true) →
        main env fuel stdin World.init
          = .returned () ⟨1,
              ["Enter pattern, or nothing for non-vanity address: ",
               "This is a private key in hex:\t[" ++ hexEncodeToString k.Serialize ++ "]\n",
               "This is a public key in hex:\t["
                 ++ hexEncodeToString k.PubKey.SerializeCompressed ++ "]\n",
               "This is the associated Bitcoin address:\t[" ++ addrString k.PubKey ++ "]\n"]⟩ := by
  constructor
  · intro fuel
    rw [generateVanityAddress_compiled env (fuel + 1) "" World.init k r hk hc,
      searchLoop_match env r fuel _ _ _ (hall _)]
    rfl
  · intro fuel stdin hws
    have ht := TrimSpace_of_spaces (String.mk (ReadString stdin.data)) hws
    have h := main_no_pattern env fuel stdin World.init k ht hk
    simpa [World.init] using h

/-- Witness for C6: the sample environment, and a line of two blanks. -/
theorem empty_pattern_single_cycle_witness :
    generateVanityAddress sampleEnv 1 "" World.init
        = .returned (some (keyOne.PubKey, keyOne)) ⟨1, []⟩ ∧
      main sampleEnv 0 "  \n" World.init
        = .returned () ⟨1,
            ["Enter pattern, or nothing for non-vanity address: ",
             "This is a private key in hex:\t[" ++ hexEncodeToString keyOne.Serialize ++ "]\n",
             "This is a public key in hex:\t["
               ++ hexEncodeToString keyOne.PubKey.SerializeCompressed ++ "]\n",
             "This is the associated Bitcoin address:\t["
               ++ addrString keyOne.PubKey ++ "]\n"]⟩ :=
  have h := empty_pattern_single_cycle sampleEnv matchAll keyOne rfl (fun _ => rfl) rfl
  ⟨h.1 0, h.2 0 "  \n" (by decide)⟩

/-- C8, as the claim states it, fails when the second draw fails during a search
for `^3`: the process is ended by `log.Fatal`; nothing is returned to the
caller. -/
theorem generateVanityAddress_keygen_failure_ends_process :
    failingEnv.NewPrivateKey 1 = none ∧
      generateVanityAddress failingEnv 1 "^3" World.init = .fatal ⟨2, []⟩ :=
  ⟨rfl, by decide⟩

/-- C8, amended. When the draw of index `n` fails during a search (the pattern
compiles, the earlier draws succeed and none of their addresses matches), the
search is aborted by `log.Fatal`, which ends the process: no value is returned
to the caller, and no draw follows the failed one. -/
theorem generateVanityAddress_keygen_failure_is_fatal (env : Env) (pattern : String)
    (r : Regexp) (keys : Nat → PrivateKey) (n fuel : Nat)
    (hc : env.Compile pattern = some r)
    (hk : ∀ j, j < n → env.NewPrivateKey j = some (keys j))
    (hfail : env.NewPrivateKey n = none)
    (hno : ∀ j, j < n → r.MatchString (addrString (keys j).PubKey) = false)
    (hfuel : n ≤ fuel) :
    generateVanityAddress env fuel pattern World.init = .fatal ⟨n + 1, []⟩ := by
  cases n with
  | zero =>
    rw [generateVanityAddress, generateKeyPair_none env World.init hfail]
    rfl
  | succ m =>
    obtain ⟨f, hf⟩ : ∃ f, fuel = f + 1 + m := ⟨fuel - 1 - m, by omega⟩
    have hskip := searchLoop_skip env r keys m 0 (f + 1) []
      (fun j _ h2 => hno j (by omega)) (fun j _ h2 => hk j (by omega))
    simp only [Nat.zero_add] at hskip
    rw [generateVanityAddress_compiled env fuel pattern World.init (keys 0) r
      (hk 0 (by omega)) hc, hf]
    simp only [World.init, Nat.zero_add]
    rw [hskip, searchLoop_fatal env r f _ _ _ (hno m (by omega)) hfail]
    rfl

/-- Witness for C8, amended: the second draw fails during a search for `^3`. -/
theorem generateVanityAddress_keygen_failure_is_fatal_witness :
    generateVanityAddress failingEnv 1 "^3" World.init = .fatal ⟨1 + 1, []⟩ :=
  generateVanityAddress_keygen_failure_is_fatal failingEnv "^3" (anchoredLiteral "3")
    (fun _ => keyOne) 1 1 rfl
    (fun j hj => by
      have : j = 0 := by omega
      subst this
      rfl)
    rfl
    (fun _ _ =>
      (by decide : (anchoredLiteral "3").MatchString (addrString keyOne.PubKey) = false))
    (le_refl _)

/-- C9. For a pattern that compiles and matches no address string, and a
randomness source that never fails, the search does not return: for every `n`,
after `n` generate-derive-match cycles `generateVanityAddress` is still in its
loop, having drawn `n + 1` pairs. -/
theorem generateVanityAddress_unmatchable_never_returns (env : Env) (pattern : String)
    (r : Regexp) (keys : Nat → PrivateKey)
    (hc : env.Compile pattern = some r)
    (hk : ∀ n, env.NewPrivateKey n = some (keys n))
    (hno : ∀ pub, r.MatchString (addrString pub) = false) (n : Nat) :
    generateVanityAddress env n pattern World.init = .running ⟨n + 1, []⟩ := by
  have hskip := searchLoop_skip env r keys n 0 0 []
    (fun j _ _ => hno _) (fun j _ _ => hk j)
  simp only [Nat.zero_add] at hskip
  rw [generateVanityAddress_compiled env n pattern World.init (keys 0) r (hk 0) hc]
  simp only [World.init, Nat.zero_add]
  rw [hskip]
  rfl

/-- Witness for C9: the pattern `0` asks for a character that is not in the
base-58 alphabet. -/
theorem generateVanityAddress_unmatchable_never_returns_witness :
    generateVanityAddress sampleEnv 7 "0" World.init = .running ⟨7 + 1, []⟩ :=
  generateVanityAddress_unmatchable_never_returns sampleEnv "0" (containsChar '0') sampleKeys
    rfl (fun _ => rfl)
    (fun pub => by
      have hmem := base58Encode_mem_alphabet ([0] ++ Hash160 pub.SerializeCompressed
        ++ (sha256 (sha256 ([0] ++ Hash160 pub.SerializeCompressed))).take 4)
      rw [← addrString_eq_base58] at hmem
      have h0 : '0' ∉ (addrString pub).data := fun h => absurd (hmem _ h) (by decide)
      simp [containsChar, h0])
    7

/-- C10. For every public key, the string of `generateAddr(pub)` consists of
characters of the base-58 alphabet and begins with `1`; so a regular expression
whose matches all begin with another character does not match it, and the
search loop run with such an expression never returns a pair. -/
theorem generateAddr_string_alphabet_and_leading_one (pub : PublicKey) (w : World) :
    ∃ addr, generateAddr pub w = .returned addr w ∧
      (∀ c ∈ addr.String.data, c ∈ alphabet) ∧
      addr.String.data.head? = some '1' ∧
      ∀ r : Regexp, (∀ s, r.MatchString s = true → s.data.head? ≠ some '1') →
        r.MatchString addr.String = false ∧
        ∀ (env : Env) (fuel : Nat) (priv : PrivateKey) (res : PublicKey × PrivateKey)
          (w2 : World), searchLoop env (some r) fuel pub priv w ≠ .returned res w2 := by
  have hhead : ∀ p : PublicKey, (addrString p).data.head? = some '1' := by
    intro p
    rw [addrString_eq_base58]
    exact base58Encode_zero_head _
  have hno : ∀ r : Regexp, (∀ s, r.MatchString s = true → s.data.head? ≠ some '1') →
      ∀ p, r.MatchString (addrString p) = false := by
    intro r hr p
    cases hm : r.MatchString (addrString p) with
    | false => rfl
    | true => exact absurd (hhead p) (hr _ hm)
  refine ⟨_, generateAddr_returned pub w, ?_, ?_, ?_⟩
  · rw [addrString_of_returned, addrString_eq_base58]
    exact base58Encode_mem_alphabet _
  · rw [addrString_of_returned]
    exact hhead pub
  · intro r hr
    refine ⟨?_, ?_⟩
    · rw [addrString_of_returned]
      exact hno r hr pub
    · intro env fuel priv res w2
      exact searchLoop_never_returned env r (hno r hr) fuel pub priv w res w2

/-- Witness for C10: the pattern `^3` and the public key of the private key 1. -/
theorem generateAddr_string_alphabet_and_leading_one_witness :
    (∀ s, (anchoredLiteral "3").MatchString s = true → s.data.head? ≠ some '1') ∧
      (anchoredLiteral "3").MatchString (addrString keyOne.PubKey) = false := by
  have hr : ∀ s, (anchoredLiteral "3").MatchString s = true → s.data.head? ≠ some '1' := by
    intro s hs
    simp only [anchoredLiteral, decide_eq_true_eq] at hs
    rcases hd : s.data with _ | ⟨c, t⟩
    · simp
    · rw [hd] at hs
      have hc : c = '3' := by simpa [List.take] using hs
      subst hc
      simp
  obtain ⟨addr, hret, _, _, hcons⟩ :=
    generateAddr_string_alphabet_and_leading_one keyOne.PubKey World.init
  rw [generateAddr_returned] at hret
  injection hret with ha _
  refine ⟨hr, ?_⟩
  rw [← addrString_of_returned, ha]
  exact (hcons (anchoredLiteral "3") hr).1

end BtcGo
